import Mathlib

set_option maxRecDepth 8192

/-!
Verification of the tic-tac-toe game engine in
`src/tic_tac_toe_frontend/src/App.js`.

The development shallowly embeds the game core: the pure winner scan
(`calculateWinner`), the derived draw/game-over flags, the `App`
component's state (`squares`, `xIsNext`, `scores`, `theme`, the
`firstConclusionLogged` ref and the pending score-effect timeout) and its
event-driven transitions (`handlePlay`, `handleReset`, the score
`useEffect` with its cleanup, the 200 ms timer, theme toggling), plus the
`useLocalStorage` read/write fallback behaviour.
-/

/-- A player's symbol, `'X'` or `'O'` in the source. -/
inductive Player
  | X
  | O
deriving DecidableEq, Repr

/-- A board cell: `null` in the source is `none`, a placed symbol is `some`. -/
abbrev Cell := Option Player

/-- `squares[i]` — JS array indexing; out-of-range reads give `undefined`,
which the guards treat exactly like `null`, so both map to `none`. -/
def cellAt (squares : List Cell) (i : Nat) : Cell :=
  squares.getD i none

/-- The 8 winning lines in the exact order of the `lines` array in
`calculateWinner`: 3 rows, 3 columns, 2 diagonals. -/
def winLines : List (Nat × Nat × Nat) :=
  [(0, 1, 2), (3, 4, 5), (6, 7, 8),
   (0, 3, 6), (1, 4, 7), (2, 5, 8),
   (0, 4, 8), (2, 4, 6)]

/-- The loop body's test `squares[a] && squares[a] === squares[b] &&
squares[a] === squares[c]` (truthiness of a cell is `isSome`). -/
def lineWin (squares : List Cell) (l : Nat × Nat × Nat) : Bool :=
  (cellAt squares l.1).isSome
    && decide (cellAt squares l.1 = cellAt squares l.2.1)
    && decide (cellAt squares l.1 = cellAt squares l.2.2)

/-- `calculateWinner`: scan `winLines` in order and return the first line
whose three cells are identical and non-empty, together with its symbol
(`{ winner: squares[a], line: [a,b,c] }`); otherwise `none`
(`{ winner: null, line: null }`). -/
def calculateWinner (squares : List Cell) : Option (Player × (Nat × Nat × Nat)) :=
  match winLines.find? (lineWin squares) with
  | some l =>
    match cellAt squares l.1 with
    | some p => some (p, l)
    | none => none
  | none => none

/-- The `winner` component destructured from `calculateWinner` in `App`. -/
def winnerOf (squares : List Cell) : Option Player :=
  (calculateWinner squares).map Prod.fst

/-- The `line` component destructured from `calculateWinner` in `App`. -/
def lineOf (squares : List Cell) : Option (Nat × Nat × Nat) :=
  (calculateWinner squares).map Prod.snd

/-- `isDraw = !winner && squares.every((s) => s !== null)`. -/
def isDraw (squares : List Cell) : Bool :=
  (winnerOf squares).isNone && squares.all (fun c => c.isSome)

/-- `gameOver = Boolean(winner) || isDraw`. -/
def gameOver (squares : List Cell) : Bool :=
  (winnerOf squares).isSome || isDraw squares

/-- The spec's derived `GameResult`: `InProgress`, `Win(player, line)` or
`Draw`. -/
inductive GameResult
  | inProgress
  | win (p : Player) (l : Nat × Nat × Nat)
  | draw
deriving DecidableEq, Repr

/-- The spec's `evaluate`, assembled from the source's derivations in
`App`: the winner and line come from `calculateWinner`, a winnerless
board is a draw exactly when `isDraw` holds, otherwise the game is in
progress. -/
def evaluate (squares : List Cell) : GameResult :=
  match calculateWinner squares with
  | some (p, l) => .win p l
  | none => if isDraw squares then .draw else .inProgress

/-- The scoreboard record: `{ X, O, draws }` in the source. -/
structure Scores where
  X : Nat
  O : Nat
  draws : Nat
deriving DecidableEq, Repr

/-- `toggleTheme`: `setTheme((t) => (t === "light" ? "dark" : "light"))`. -/
def toggleTheme (t : String) : String :=
  if t = "light" then "dark" else "light"

/-- The `App` component's state: the two `useState` hooks (`squares`,
`xIsNext`), the two persisted values (`scores`, `theme`), the
`firstConclusionLogged` ref, and whether the score effect's 200 ms
`setTimeout` is currently pending (`timerArmed`). -/
structure AppState where
  squares : List Cell
  xIsNext : Bool
  scores : Scores
  theme : String
  firstConclusionLogged : Bool
  timerArmed : Bool
deriving DecidableEq, Repr

/-- The fresh app state: 9 `null` cells, X to move, zero scores (the
storage default), light theme (the storage default), flag clear, no
pending timer. -/
def initApp : AppState :=
  { squares := List.replicate 9 none
  , xIsNext := true
  , scores := ⟨0, 0, 0⟩
  , theme := "light"
  , firstConclusionLogged := false
  , timerArmed := false }

/-- `currentPlayer = xIsNext ? "X" : "O"`. -/
def currentPlayer (s : AppState) : Player :=
  if s.xIsNext then .X else .O

/-- `handlePlay`: `if (gameOver || squares[i]) return;` then copy the
board, set cell `i` to the current player's symbol and flip `xIsNext`.
It touches no other state. -/
def appHandlePlay (s : AppState) (i : Nat) : AppState :=
  if gameOver s.squares || (cellAt s.squares i).isSome then s
  else { s with squares := s.squares.set i (some (currentPlayer s))
              , xIsNext := !s.xIsNext }

/-- `handleReset`: `setSquares(Array(9).fill(null)); setXIsNext(true);`.
Note that it does not touch `firstConclusionLogged`. -/
def handleReset (s : AppState) : AppState :=
  { s with squares := List.replicate 9 none, xIsNext := true }

/-- The dependency array of the score `useEffect`:
`[gameOver, winner, isDraw, setScores]` (the setter is referentially
stable, so only the first three can change). -/
def effectDeps (s : AppState) : Bool × Option Player × Bool :=
  (gameOver s.squares, winnerOf s.squares, isDraw s.squares)

/-- The `setScores` updater inside the effect: `winner === "X"` bumps `X`,
`winner === "O"` bumps `O`, otherwise `isDraw` bumps `draws`, otherwise
the record is returned unchanged. -/
def scoreBump (sc : Scores) (w : Option Player) (d : Bool) : Scores :=
  match w with
  | some .X => { sc with X := sc.X + 1 }
  | some .O => { sc with O := sc.O + 1 }
  | none => if d then { sc with draws := sc.draws + 1 } else sc

/-- One React commit of the score `useEffect` after a state change from
`old` to `new`. The effect re-runs only when its dependency array
changed. When it re-runs, React first invokes the previous run's cleanup
— `clearTimeout(t)`, cancelling any pending 200 ms flag-reset — and then
the body: if the game is over and `firstConclusionLogged` is still
clear, set the flag, bump the matching counter and arm the 200 ms
timeout that will later clear the flag; otherwise return early. -/
def runScoreEffect (old new : AppState) : AppState :=
  if effectDeps old = effectDeps new then new
  else if gameOver new.squares && !new.firstConclusionLogged then
    { new with firstConclusionLogged := true
             , scores := scoreBump new.scores (winnerOf new.squares) (isDraw new.squares)
             , timerArmed := true }
  else { new with timerArmed := false }

/-- The discrete events driving `App`: a cell activation, the New Game
button, the theme toggle, the 200 ms timeout firing, and a re-render
that reads the (possibly concluded) state without changing it. -/
inductive Ev
  | play (i : Nat)
  | reset
  | toggle
  | timerFire
  | render

/-- One event step of the app: run the handler, then the commit of the
score effect. A timer can fire only while armed, and clears the
`firstConclusionLogged` ref (no re-render: refs do not trigger renders).
A bare re-render leaves the dependency array unchanged, so the effect
does not re-run and nothing changes. -/
def step (s : AppState) : Ev → AppState
  | .play i => runScoreEffect s (appHandlePlay s i)
  | .reset => runScoreEffect s (handleReset s)
  | .toggle => runScoreEffect s { s with theme := toggleTheme s.theme }
  | .timerFire =>
    if s.timerArmed then
      { s with firstConclusionLogged := false, timerArmed := false }
    else s
  | .render => s

/-- Run a sequence of events from a state. -/
def steps (s : AppState) (evs : List Ev) : AppState :=
  evs.foldl step s

/-- Number of cells holding symbol `p` — the spec's `count(X)` /
`count(O)`. -/
def countCell : List Cell → Player → Nat
  | [], _ => 0
  | c :: rest, p => (if c = some p then 1 else 0) + countCell rest p

/-- A move is legal when the derived result is `InProgress`, the target
cell is empty, and the index is on the board. -/
def legalMoveB (s : AppState) (i : Nat) : Bool :=
  decide (evaluate s.squares = .inProgress)
    && decide (cellAt s.squares i = none)
    && decide (i < 9)

/-- Every move of the sequence is legal in the state where it is played. -/
def legalRunB : AppState → List Nat → Bool
  | _, [] => true
  | s, i :: ms => legalMoveB s i && legalRunB (step s (.play i)) ms

/-- Play a sequence of moves (each a full app step). -/
def runMoves (s : AppState) (ms : List Nat) : AppState :=
  ms.foldl (fun t i => step t (.play i)) s

/-- A board where X has completed the first row. -/
def winBoardEx : List Cell :=
  [some .X, some .X, some .X, some .O, some .O, none, none, none, none]

/-- The spec's scenario draw board `X,O,X,O,X,O,O,X,O`: full, no line. -/
def drawBoardEx : List Cell :=
  [some .X, some .O, some .X, some .O, some .X, some .O, some .O, some .X, some .O]

/-- A board with three moves played and no completed line. -/
def partBoardEx : List Cell :=
  [some .X, some .O, some .X, none, none, none, none, none, none]

/-- The in-memory value plus the backing stored string for one
`useLocalStorage` key. -/
structure PersistentCell (α : Type) where
  value : α
  stored : Option String

/-- The lazy `useState` initializer in `useLocalStorage`:
`const ls = window.localStorage.getItem(key); return ls ? JSON.parse(ls) : initialValue`
wrapped in `try/catch`. An absent key (`getItem` returns `null`) or an
empty (falsy) string yields the default, and a throwing `JSON.parse` —
modelled as `parse` returning `none` — is caught and yields the
default. -/
def lsInit {α : Type} (parse : String → Option α) (initial : α)
    (stored : Option String) : α :=
  match stored with
  | none => initial
  | some s => if s = "" then initial else (parse s).getD initial

/-- The persisting effect in `useLocalStorage`:
`try { setItem(key, JSON.stringify(value)) } catch { /* ignore */ }`.
The in-memory state always becomes `v` (the `setValue` already
happened); the stored string updates only when the write succeeds. -/
def lsSet {α : Type} (serialize : α → String) (writeOk : Bool)
    (c : PersistentCell α) (v : α) : PersistentCell α :=
  { value := v, stored := if writeOk then some (serialize v) else c.stored }

/-! ## Helper lemmas -/

/-- The source's `gameOver` flag is set exactly when the derived
`GameResult` is concluded. -/
theorem gameOver_iff (squares : List Cell) :
    gameOver squares = true ↔ evaluate squares ≠ GameResult.inProgress := by
  unfold gameOver evaluate winnerOf isDraw
  cases hc : calculateWinner squares with
  | some pl =>
    simp
  | none =>
    simp only [Option.map_none', Option.isSome_none, Option.isNone_none,
      Bool.false_or, Bool.true_and]
    cases hall : squares.all (fun c => c.isSome) <;> simp

/-- `runScoreEffect` is the identity when the dependency array did not
change at all (the whole state is the same). -/
theorem runScoreEffect_self (s : AppState) : runScoreEffect s s = s := by
  unfold runScoreEffect
  simp

/-- The score effect never touches the board. -/
theorem runScoreEffect_squares (old new : AppState) :
    (runScoreEffect old new).squares = new.squares := by
  unfold runScoreEffect
  split
  · rfl
  · split
    · rfl
    · rfl

/-- The score effect never touches the turn flag. -/
theorem runScoreEffect_xIsNext (old new : AppState) :
    (runScoreEffect old new).xIsNext = new.xIsNext := by
  unfold runScoreEffect
  split
  · rfl
  · split
    · rfl
    · rfl

/-- The score effect never touches the theme. -/
theorem runScoreEffect_theme (old new : AppState) :
    (runScoreEffect old new).theme = new.theme := by
  unfold runScoreEffect
  split
  · rfl
  · split
    · rfl
    · rfl

/-- When the new board is not concluded, the score effect leaves the
scores unchanged (the effect body returns early). -/
theorem runScoreEffect_scores_of_not_over (old new : AppState)
    (h : gameOver new.squares = false) :
    (runScoreEffect old new).scores = new.scores := by
  unfold runScoreEffect
  split
  · rfl
  · simp [h]

/-- On a legal target (game in progress, cell empty) `handlePlay` takes
the guard's else branch: it writes the current symbol and flips the
turn. -/
theorem appHandlePlay_legal (s : AppState) (i : Nat)
    (h1 : evaluate s.squares = .inProgress) (h2 : cellAt s.squares i = none) :
    appHandlePlay s i
      = { s with squares := s.squares.set i (some (currentPlayer s))
               , xIsNext := !s.xIsNext } := by
  have hg : gameOver s.squares = false := by
    cases hb : gameOver s.squares
    · rfl
    · exact absurd h1 ((gameOver_iff s.squares).mp hb)
  unfold appHandlePlay
  simp [hg, h2]

/-- Board and turn after a full legal play step (the score effect does
not touch them). -/
theorem step_play_legal (s : AppState) (i : Nat)
    (h1 : evaluate s.squares = .inProgress) (h2 : cellAt s.squares i = none) :
    (step s (.play i)).squares = s.squares.set i (some (currentPlayer s))
    ∧ (step s (.play i)).xIsNext = !s.xIsNext := by
  constructor
  · show (runScoreEffect s (appHandlePlay s i)).squares = _
    rw [runScoreEffect_squares, appHandlePlay_legal s i h1 h2]
  · show (runScoreEffect s (appHandlePlay s i)).xIsNext = _
    rw [runScoreEffect_xIsNext, appHandlePlay_legal s i h1 h2]

/-- Writing a symbol into an empty in-range cell adds one to that
symbol's count and leaves the other symbol's count unchanged. -/
theorem countCell_set (l : List Cell) (i : Nat) (hi : i < l.length)
    (h : cellAt l i = none) (p q : Player) :
    countCell (l.set i (some p)) q
      = countCell l q + (if p = q then 1 else 0) := by
  induction l generalizing i with
  | nil => simp at hi
  | cons a t ih =>
    cases i with
    | zero =>
      have ha : a = none := h
      subst ha
      show (if (some p : Cell) = some q then 1 else 0) + countCell t q
        = ((if (none : Cell) = some q then 1 else 0) + countCell t q)
          + (if p = q then 1 else 0)
      by_cases hpq : p = q
      · simp [hpq]
        omega
      · simp [hpq]
    | succ i =>
      have hi' : i < t.length := Nat.lt_of_succ_lt_succ hi
      have h' : cellAt t i = none := h
      show (if a = some q then 1 else 0) + countCell (t.set i (some p)) q
        = ((if a = some q then 1 else 0) + countCell t q) + (if p = q then 1 else 0)
      rw [ih i hi' h']
      omega

/-- Invariant along a legal run: the board keeps its 9 cells, the turn
flag tracks move parity, and the X/O counts track the turn flag. -/
theorem turn_inv_aux (ms : List Nat) :
    ∀ (s : AppState) (n : Nat),
      legalRunB s ms = true →
      s.squares.length = 9 →
      ((s.xIsNext = true
        ∧ countCell s.squares .X = countCell s.squares .O
        ∧ n % 2 = 0)
       ∨ (s.xIsNext = false
          ∧ countCell s.squares .X = countCell s.squares .O + 1
          ∧ n % 2 = 1)) →
      (runMoves s ms).squares.length = 9
      ∧ (((runMoves s ms).xIsNext = true
          ∧ countCell (runMoves s ms).squares .X = countCell (runMoves s ms).squares .O
          ∧ (n + ms.length) % 2 = 0)
         ∨ ((runMoves s ms).xIsNext = false
            ∧ countCell (runMoves s ms).squares .X
              = countCell (runMoves s ms).squares .O + 1
            ∧ (n + ms.length) % 2 = 1)) := by
  induction ms with
  | nil =>
    intro s n _ hlen hinv
    simpa using ⟨hlen, hinv⟩
  | cons i ms ih =>
    intro s n hrun hlen hinv
    have hrun' : (legalMoveB s i && legalRunB (step s (.play i)) ms) = true := hrun
    rw [Bool.and_eq_true] at hrun'
    obtain ⟨hm, hrest⟩ := hrun'
    unfold legalMoveB at hm
    rw [Bool.and_eq_true, Bool.and_eq_true] at hm
    obtain ⟨⟨he, hc⟩, hlt⟩ := hm
    have he' : evaluate s.squares = .inProgress := of_decide_eq_true he
    have hc' : cellAt s.squares i = none := of_decide_eq_true hc
    have hlt' : i < 9 := of_decide_eq_true hlt
    have hil : i < s.squares.length := by
      rw [hlen]
      exact hlt'
    obtain ⟨hsq, hx⟩ := step_play_legal s i he' hc'
    have hlen' : (step s (.play i)).squares.length = 9 := by
      rw [hsq, List.length_set]
      exact hlen
    have hinv' :
        ((step s (.play i)).xIsNext = true
          ∧ countCell (step s (.play i)).squares .X
            = countCell (step s (.play i)).squares .O
          ∧ (n + 1) % 2 = 0)
        ∨ ((step s (.play i)).xIsNext = false
           ∧ countCell (step s (.play i)).squares .X
             = countCell (step s (.play i)).squares .O + 1
           ∧ (n + 1) % 2 = 1) := by
      rcases hinv with ⟨hxt, hcnt, hmod⟩ | ⟨hxt, hcnt, hmod⟩
      · right
        have hcur : currentPlayer s = .X := by
          unfold currentPlayer
          rw [hxt]
          rfl
        refine ⟨by rw [hx, hxt]; rfl, ?_, by omega⟩
        rw [hsq, hcur, countCell_set s.squares i hil hc' .X .X,
          countCell_set s.squares i hil hc' .X .O]
        simp
        omega
      · left
        have hcur : currentPlayer s = .O := by
          unfold currentPlayer
          rw [hxt]
          rfl
        refine ⟨by rw [hx, hxt]; rfl, ?_, by omega⟩
        rw [hsq, hcur, countCell_set s.squares i hil hc' .O .X,
          countCell_set s.squares i hil hc' .O .O]
        simp
        omega
    have hrec := ih (step s (.play i)) (n + 1) hrest hlen' hinv'
    obtain ⟨hA, hB⟩ := hrec
    refine ⟨hA, ?_⟩
    have hlc : n + (i :: ms).length = (n + 1) + ms.length := by
      simp [List.length_cons]
      omega
    show ((runMoves (step s (.play i)) ms).xIsNext = true
          ∧ countCell (runMoves (step s (.play i)) ms).squares .X
            = countCell (runMoves (step s (.play i)) ms).squares .O
          ∧ (n + (i :: ms).length) % 2 = 0)
        ∨ ((runMoves (step s (.play i)) ms).xIsNext = false
           ∧ countCell (runMoves (step s (.play i)) ms).squares .X
             = countCell (runMoves (step s (.play i)) ms).squares .O + 1
           ∧ (n + (i :: ms).length) % 2 = 1)
    rw [hlc]
    exact hB

/-! ## Claim theorems -/

/-- C9: `toggleTheme` swaps the two theme values: toggling Light gives
Dark, toggling Dark gives Light, and toggling twice from either value
returns the original; in particular from the default Light the first
toggle yields Dark and the second yields Light again. -/
theorem toggleTheme_swap :
    toggleTheme "light" = "dark"
    ∧ toggleTheme "dark" = "light"
    ∧ toggleTheme (toggleTheme "light") = "light"
    ∧ toggleTheme (toggleTheme "dark") = "dark" := by
  refine ⟨by decide, by decide, by decide, by decide⟩

/-- C3: on any board containing a completed line (three identical
non-empty cells), `calculateWinner` — and hence the derived result —
reports the first completed line in the fixed scan order (rows, columns,
diagonals) together with its symbol: `evaluate` returns `Win(S, L)`
where `L` is the first completed line and `S` the symbol filling it. -/
theorem evaluate_win_first_line (squares : List Cell)
    (h : ∃ l ∈ winLines, lineWin squares l = true) :
    ∃ l p, winLines.find? (lineWin squares) = some l
      ∧ cellAt squares l.1 = some p
      ∧ cellAt squares l.2.1 = some p
      ∧ cellAt squares l.2.2 = some p
      ∧ evaluate squares = .win p l := by
  have hs : (winLines.find? (lineWin squares)).isSome := by
    rw [List.find?_isSome]
    simpa using h
  obtain ⟨l, hl⟩ := Option.isSome_iff_exists.mp hs
  have hw : lineWin squares l = true := List.find?_some hl
  unfold lineWin at hw
  rw [Bool.and_eq_true, Bool.and_eq_true] at hw
  obtain ⟨⟨h1, h2⟩, h3⟩ := hw
  obtain ⟨p, hp⟩ := Option.isSome_iff_exists.mp h1
  refine ⟨l, p, hl, hp, ?_, ?_, ?_⟩
  · rw [← of_decide_eq_true h2, hp]
  · rw [← of_decide_eq_true h3, hp]
  · have hcw : calculateWinner squares = some (p, l) := by
      unfold calculateWinner
      rw [hl]
      simp [hp]
    unfold evaluate
    rw [hcw]

/-- C4: on a 9-cell board with no completed line, the derived result is
`Draw` when every cell is filled and `InProgress` when some cell is
still empty. -/
theorem evaluate_no_line (squares : List Cell) (_hlen : squares.length = 9)
    (h : ∀ l ∈ winLines, lineWin squares l = false) :
    (squares.all (fun c => c.isSome) = true → evaluate squares = .draw)
    ∧ (squares.all (fun c => c.isSome) = false → evaluate squares = .inProgress) := by
  have hn : winLines.find? (lineWin squares) = none := by
    rw [List.find?_eq_none]
    intro l hl
    simp [h l hl]
  have hcw : calculateWinner squares = none := by
    unfold calculateWinner
    rw [hn]
  have hwo : winnerOf squares = none := by
    unfold winnerOf
    rw [hcw]
    rfl
  have hd : isDraw squares = squares.all (fun c => c.isSome) := by
    unfold isDraw
    rw [hwo]
    simp
  constructor <;> intro hall <;>
    unfold evaluate <;> rw [hcw, hd, hall] <;> simp

/-- C5: `handlePlay` is a no-op — the whole app state is unchanged, both
for the raw handler and for the full event step — whenever the derived
result is not `InProgress` or the target cell is occupied; the illegal
move is silently rejected. -/
theorem handlePlay_rejects_illegal (s : AppState) (i : Nat)
    (h : evaluate s.squares ≠ .inProgress ∨ cellAt s.squares i ≠ none) :
    appHandlePlay s i = s ∧ step s (.play i) = s := by
  have hg : (gameOver s.squares || (cellAt s.squares i).isSome) = true := by
    cases h with
    | inl h =>
      have := (gameOver_iff s.squares).mpr h
      simp [this]
    | inr h =>
      have : (cellAt s.squares i).isSome = true := by
        cases hc : cellAt s.squares i with
        | none => exact absurd hc h
        | some p => rfl
      simp [this]
  have hp : appHandlePlay s i = s := by
    unfold appHandlePlay
    rw [if_pos hg]
  refine ⟨hp, ?_⟩
  show runScoreEffect s (appHandlePlay s i) = s
  rw [hp, runScoreEffect_self]

/-- C5 witness: on the fresh board an occupied cell (after X plays 0, cell
0 is occupied) makes the next play at 0 a no-op. -/
theorem handlePlay_rejects_illegal_witness :
    (evaluate (step initApp (.play 0)).squares ≠ .inProgress
      ∨ cellAt (step initApp (.play 0)).squares 0 ≠ none)
    ∧ appHandlePlay (step initApp (.play 0)) 0 = step initApp (.play 0)
    ∧ step (step initApp (.play 0)) (.play 0) = step initApp (.play 0) := by
  refine ⟨Or.inr (by decide), ?_, ?_⟩
  · exact (handlePlay_rejects_illegal (step initApp (.play 0)) 0 (Or.inr (by decide))).1
  · exact (handlePlay_rejects_illegal (step initApp (.play 0)) 0 (Or.inr (by decide))).2


/-- C3 witness: on `winBoardEx` the hypothesis holds and the theorem
yields `Win(X, (0,1,2))`. -/
theorem evaluate_win_first_line_witness :
    (∃ l ∈ winLines, lineWin winBoardEx l = true)
    ∧ ∃ l p, winLines.find? (lineWin winBoardEx) = some l
        ∧ cellAt winBoardEx l.1 = some p
        ∧ cellAt winBoardEx l.2.1 = some p
        ∧ cellAt winBoardEx l.2.2 = some p
        ∧ evaluate winBoardEx = .win p l :=
  ⟨⟨(0, 1, 2), by decide, by decide⟩,
   evaluate_win_first_line winBoardEx ⟨(0, 1, 2), by decide, by decide⟩⟩

/-- C4 witness: the full line-free board evaluates to `Draw`, the partial
line-free board to `InProgress`. -/
theorem evaluate_no_line_witness :
    drawBoardEx.length = 9
    ∧ (∀ l ∈ winLines, lineWin drawBoardEx l = false)
    ∧ evaluate drawBoardEx = .draw
    ∧ partBoardEx.length = 9
    ∧ (∀ l ∈ winLines, lineWin partBoardEx l = false)
    ∧ evaluate partBoardEx = .inProgress :=
  ⟨by decide, by decide,
   (evaluate_no_line drawBoardEx (by decide) (by decide)).1 (by decide),
   by decide, by decide,
   (evaluate_no_line partBoardEx (by decide) (by decide)).2 (by decide)⟩

/-- C1 (code-bug exhibit): from the fresh app, X wins at indices
0,3,1,4,2 and the first conclusion is counted exactly once (`xWins = 1`,
further renders change nothing). But after an immediate reset — i.e.
before the 200 ms timeout fires — an identical second game again
concludes with `Win(X,(0,1,2))`, and `xWins` is still 1 instead of the
claimed 2: the second conclusion is never recorded, because `handleReset`
does not clear `firstConclusionLogged` and the effect's cleanup cancels
the pending timeout that would have cleared it. -/
theorem scoreTracker_quick_reset_bug :
    (steps initApp [.play 0, .play 3, .play 1, .play 4, .play 2, .render]).scores
      = ⟨1, 0, 0⟩
    ∧ evaluate (steps initApp [.play 0, .play 3, .play 1, .play 4, .play 2, .render]).squares
      = .win .X (0, 1, 2)
    ∧ (steps initApp [.play 0, .play 3, .play 1, .play 4, .play 2, .render, .reset,
                      .play 0, .play 3, .play 1, .play 4, .play 2, .render]).scores
      = ⟨1, 0, 0⟩
    ∧ evaluate (steps initApp [.play 0, .play 3, .play 1, .play 4, .play 2, .render, .reset,
                               .play 0, .play 3, .play 1, .play 4, .play 2, .render]).squares
      = .win .X (0, 1, 2) := by
  refine ⟨by decide, by decide, by decide, by decide⟩

/-- C2 (code-bug exhibit): after a game concludes the
`firstConclusionLogged` flag is set; a reset does **not** clear it (it
stays `true`), while the 200 ms timer firing — which is not a reset —
**does** clear it. Both directions contradict the claim that the flag is
cleared exactly by `reset()` and never by a timer. -/
theorem conclusionFlag_timer_not_reset_bug :
    (steps initApp [.play 0, .play 3, .play 1, .play 4, .play 2]).firstConclusionLogged
      = true
    ∧ (steps initApp [.play 0, .play 3, .play 1, .play 4, .play 2, .reset]).firstConclusionLogged
      = true
    ∧ (steps initApp [.play 0, .play 3, .play 1, .play 4, .play 2, .timerFire]).firstConclusionLogged
      = false := by
  refine ⟨by decide, by decide, by decide⟩

/-- C7: from any prior state, a reset yields a board of 9 empty cells
with X to move, and leaves the score counters and the theme unchanged. -/
theorem reset_fresh_board_frame (s : AppState) :
    (step s .reset).squares = List.replicate 9 none
    ∧ (step s .reset).xIsNext = true
    ∧ (step s .reset).scores = s.scores
    ∧ (step s .reset).theme = s.theme := by
  have hg : gameOver (handleReset s).squares = false := by
    show gameOver (List.replicate 9 none) = false
    decide
  refine ⟨?_, ?_, ?_, ?_⟩
  · show (runScoreEffect s (handleReset s)).squares = _
    rw [runScoreEffect_squares]
    rfl
  · show (runScoreEffect s (handleReset s)).xIsNext = _
    rw [runScoreEffect_xIsNext]
    rfl
  · show (runScoreEffect s (handleReset s)).scores = _
    rw [runScoreEffect_scores_of_not_over _ _ hg]
    rfl
  · show (runScoreEffect s (handleReset s)).theme = _
    rw [runScoreEffect_theme]
    rfl


/-- C8: at startup an absent or unreadable stored value falls back to the
default — the all-zero score record for the scores key, `"light"` for
the theme key — without failing; and a failing persistence write is
swallowed: the in-memory value still updates to the new value. -/
theorem useLocalStorage_defaults_and_swallowed_write
    (parseScores : String → Option Scores) (parseTheme : String → Option String)
    (s t : String) (hs : parseScores s = none) (ht : parseTheme t = none)
    (serialize : Scores → String) (c : PersistentCell Scores) (v : Scores) :
    lsInit parseScores ⟨0, 0, 0⟩ none = ⟨0, 0, 0⟩
    ∧ lsInit parseScores ⟨0, 0, 0⟩ (some s) = ⟨0, 0, 0⟩
    ∧ lsInit parseTheme "light" none = "light"
    ∧ lsInit parseTheme "light" (some t) = "light"
    ∧ (lsSet serialize false c v).value = v := by
  refine ⟨rfl, ?_, rfl, ?_, rfl⟩
  · show (if s = "" then (⟨0, 0, 0⟩ : Scores) else (parseScores s).getD ⟨0, 0, 0⟩)
      = ⟨0, 0, 0⟩
    rw [hs]
    split <;> rfl
  · show (if t = "" then "light" else (parseTheme t).getD "light") = "light"
    rw [ht]
    split <;> rfl

/-- C8 witness: concrete unreadable strings and a failing write. -/
theorem useLocalStorage_defaults_witness :
    (fun _ : String => (none : Option Scores)) "garbage" = none
    ∧ (fun _ : String => (none : Option String)) "garbage" = none
    ∧ (lsInit (fun _ => (none : Option Scores)) ⟨0, 0, 0⟩ none = ⟨0, 0, 0⟩
       ∧ lsInit (fun _ => (none : Option Scores)) ⟨0, 0, 0⟩ (some "garbage") = ⟨0, 0, 0⟩
       ∧ lsInit (fun _ => (none : Option String)) "light" none = "light"
       ∧ lsInit (fun _ => (none : Option String)) "light" (some "garbage") = "light"
       ∧ (lsSet (fun _ : Scores => "") false
            (⟨⟨0, 0, 0⟩, none⟩ : PersistentCell Scores) ⟨1, 2, 3⟩).value = ⟨1, 2, 3⟩) :=
  ⟨rfl, rfl,
   useLocalStorage_defaults_and_swallowed_write
     (fun _ => (none : Option Scores)) (fun _ => (none : Option String))
     "garbage" "garbage" rfl rfl (fun _ => "")
     (⟨⟨0, 0, 0⟩, none⟩ : PersistentCell Scores) (⟨1, 2, 3⟩ : Scores)⟩

/-- Setting one cell leaves every other position's read unchanged. -/
theorem cellAt_set_ne (l : List Cell) (v : Cell) (i j : Nat) (h : j ≠ i) :
    cellAt (l.set i v) j = cellAt l j := by
  induction l generalizing i j with
  | nil => rfl
  | cons a t ih =>
    cases i with
    | zero =>
      cases j with
      | zero => exact absurd rfl h
      | succ j => rfl
    | succ i =>
      cases j with
      | zero => rfl
      | succ j =>
        show cellAt (t.set i v) j = cellAt t j
        exact ih i j (fun hh => h (by rw [hh]))

/-- C10: a legal move (derived result `InProgress`, target cell empty)
changes only the target cell — the board becomes `set i (current
symbol)` and every other cell keeps its value — flips the turn flag, and
modifies nothing else: scores, theme, the conclusion flag and the
pending timer are untouched by the move handler itself. -/
theorem applyMove_frame (s : AppState) (i : Nat)
    (h1 : evaluate s.squares = .inProgress) (h2 : cellAt s.squares i = none) :
    (appHandlePlay s i).squares = s.squares.set i (some (currentPlayer s))
    ∧ (∀ j, j ≠ i → cellAt (appHandlePlay s i).squares j = cellAt s.squares j)
    ∧ (appHandlePlay s i).xIsNext = !s.xIsNext
    ∧ (appHandlePlay s i).scores = s.scores
    ∧ (appHandlePlay s i).theme = s.theme
    ∧ (appHandlePlay s i).firstConclusionLogged = s.firstConclusionLogged
    ∧ (appHandlePlay s i).timerArmed = s.timerArmed := by
  have hg : gameOver s.squares = false := by
    cases hb : gameOver s.squares
    · rfl
    · exact absurd h1 ((gameOver_iff s.squares).mp hb)
  have hc : (cellAt s.squares i).isSome = false := by
    rw [h2]
    rfl
  have hp : appHandlePlay s i
      = { s with squares := s.squares.set i (some (currentPlayer s))
               , xIsNext := !s.xIsNext } := by
    unfold appHandlePlay
    simp [hg, hc]
  rw [hp]
  refine ⟨rfl, ?_, rfl, rfl, rfl, rfl, rfl⟩
  intro j hj
  exact cellAt_set_ne s.squares _ i j hj

/-- C10 witness: the first move of a fresh game at cell 0. -/
theorem applyMove_frame_witness :
    evaluate initApp.squares = .inProgress
    ∧ cellAt initApp.squares 0 = none
    ∧ ((appHandlePlay initApp 0).squares
        = initApp.squares.set 0 (some (currentPlayer initApp))
      ∧ (∀ j, j ≠ 0 → cellAt (appHandlePlay initApp 0).squares j
          = cellAt initApp.squares j)
      ∧ (appHandlePlay initApp 0).xIsNext = !initApp.xIsNext
      ∧ (appHandlePlay initApp 0).scores = initApp.scores
      ∧ (appHandlePlay initApp 0).theme = initApp.theme
      ∧ (appHandlePlay initApp 0).firstConclusionLogged = initApp.firstConclusionLogged
      ∧ (appHandlePlay initApp 0).timerArmed = initApp.timerArmed) :=
  ⟨by decide, by decide, applyMove_frame initApp 0 (by decide) (by decide)⟩


/-- C6: in every state reachable from a fresh game by legal moves, the
turn alternates strictly and is derivable from the board: after N legal
moves the turn is X iff N is even; `count(X) − count(O)` is 0 or 1; and
`count(X) > count(O)` holds exactly when O is to move. -/
theorem turn_alternation (ms : List Nat) (h : legalRunB initApp ms = true) :
    ((runMoves initApp ms).xIsNext = true ↔ ms.length % 2 = 0)
    ∧ (countCell (runMoves initApp ms).squares .X
        = countCell (runMoves initApp ms).squares .O
       ∨ countCell (runMoves initApp ms).squares .X
        = countCell (runMoves initApp ms).squares .O + 1)
    ∧ (countCell (runMoves initApp ms).squares .X
        > countCell (runMoves initApp ms).squares .O
       ↔ (runMoves initApp ms).xIsNext = false) := by
  have base :
      (initApp.xIsNext = true
        ∧ countCell initApp.squares .X = countCell initApp.squares .O
        ∧ 0 % 2 = 0)
      ∨ (initApp.xIsNext = false
         ∧ countCell initApp.squares .X = countCell initApp.squares .O + 1
         ∧ 0 % 2 = 1) := by
    left
    exact ⟨rfl, rfl, rfl⟩
  obtain ⟨_, hinv⟩ := turn_inv_aux ms initApp 0 h (by decide) base
  rcases hinv with ⟨hx, hcnt, hmod⟩ | ⟨hx, hcnt, hmod⟩
  · have hmod' : ms.length % 2 = 0 := by omega
    refine ⟨⟨fun _ => hmod', fun _ => hx⟩, Or.inl hcnt, ?_, ?_⟩
    · intro hgt
      exact absurd hgt (by omega)
    · intro hf
      rw [hx] at hf
      cases hf
  · have hmod' : ms.length % 2 = 1 := by omega
    refine ⟨⟨?_, ?_⟩, Or.inr hcnt, fun _ => hx, fun _ => by omega⟩
    · intro ht
      rw [hx] at ht
      cases ht
    · intro hl
      omega

/-- C6 witness: the two-move run X at 0 then O at 4 is legal; after it
O has just moved, X is to move again, and the counts are equal. -/
theorem turn_alternation_witness :
    legalRunB initApp [0, 4] = true
    ∧ (((runMoves initApp [0, 4]).xIsNext = true ↔ ([0, 4] : List Nat).length % 2 = 0)
      ∧ (countCell (runMoves initApp [0, 4]).squares .X
          = countCell (runMoves initApp [0, 4]).squares .O
         ∨ countCell (runMoves initApp [0, 4]).squares .X
          = countCell (runMoves initApp [0, 4]).squares .O + 1)
      ∧ (countCell (runMoves initApp [0, 4]).squares .X
          > countCell (runMoves initApp [0, 4]).squares .O
         ↔ (runMoves initApp [0, 4]).xIsNext = false)) :=
  ⟨by decide, turn_alternation [0, 4] (by decide)⟩

